import Mathlib

/-!
Verification of the vscode-huff debugger orchestration code.

The development shallowly embeds the JavaScript sources
`src/features/debugger/debuggerUtils.js` and the debug-webview provider/script
(`DebuggerViewProvider` and the webview page script).  JavaScript strings are
modelled as `String` / `List Char`, the Node.js filesystem as an explicit
record of directories, files and git repositories, fallible operations as
`Except`, and JavaScript truthiness where the source relies on it.
-/

namespace Huff

/-! ## Installation checker (`checkHevmInstallation`, `checkHuffcInstallation`,
`checkInstallations`)

`checkInstallations` awaits `Promise.all([checkHevmInstallation(),
checkHuffcInstallation])`: the second element is the *function value* itself,
not a call.  `Promise.all` passes non-promise values through, so the awaited
array holds a boolean (result of the hevm check) and a function object, and
`results.every(result => result)` tests JavaScript truthiness of both. -/

/-- A JavaScript value as it appears in the awaited `results` array: either a
boolean produced by an invoked check, or a function object. -/
inductive JsVal
  | bool (b : Bool)
  | func
deriving DecidableEq

/-- JavaScript truthiness: a function object is always truthy. -/
def truthy : JsVal → Bool
  | .bool b => b
  | .func => true

/-- The host environment: whether each external binary is on the PATH. -/
structure Env where
  hevmInstalled : Bool
  huffcInstalled : Bool
deriving DecidableEq

/-- `checkHevmInstallation`: `commandExists("hevm")` resolves iff the binary is
installed; the catch branch reports an error and returns `false`. -/
def checkHevmInstallation (env : Env) : Bool := env.hevmInstalled

/-- `checkHuffcInstallation`: same shape for the `huffc` binary. -/
def checkHuffcInstallation (env : Env) : Bool := env.huffcInstalled

/-- `checkInstallations`: `Promise.all([checkHevmInstallation(),
checkHuffcInstallation])` — the huffc entry is the function reference, embedded
as `JsVal.func`; then `results.every(result => result)`. -/
def checkInstallations (env : Env) : Bool :=
  [JsVal.bool (checkHevmInstallation env), JsVal.func].all truthy

/-! ## `formatEvenBytes`

`bytes.length % 2` is truthy iff the length is odd; `bytes.replace("0x",
"0x0")` replaces the first occurrence of the pattern, or returns the string
unchanged if the pattern does not occur. -/

/-- `s.replace(pat, rep)` for a string pattern: replace the first occurrence of
`pat` in `s` by `rep`; if `pat` never occurs, return `s` unchanged.
(Arguments are reordered so the recursion is structural in `s`.) -/
def jsReplace (pat rep : List Char) : List Char → List Char
  | [] => if pat.isPrefixOf [] then rep ++ [] else []
  | c :: t =>
    if pat.isPrefixOf (c :: t) then rep ++ (c :: t).drop pat.length
    else c :: jsReplace pat rep t

/-- `formatEvenBytes` from `debuggerUtils.js`. -/
def formatEvenBytes (bytes : List Char) : List Char :=
  if bytes.length % 2 = 1 then jsReplace "0x".data "0x0".data bytes else bytes

/-! ## Adjacent character pairs

Helper used to reason about which substrings can occur in a command string
built by concatenation. -/

/-- All adjacent pairs of characters in a list. -/
def adjPairs : List Char → List (Char × Char)
  | [] => []
  | [_] => []
  | a :: b :: t => (a, b) :: adjPairs (b :: t)

/-- Last character of a list, with a default for the empty list. -/
def lastD (d : Char) : List Char → Char
  | [] => d
  | [a] => a
  | _ :: b :: t => lastD d (b :: t)

/-! ## Filesystem and process model

The Node.js `fs` calls and the two shell invocations made by
`debuggerUtils.js` act on this state.  `rmDenied` lists paths whose deletion
the operating system refuses with a permission error (modelling filesystem
errors other than "not found" on deletion). -/

/-- Error codes of the filesystem/process operations the source uses. -/
inductive JsErr
  | enoent
  | eexist
  | eacces
deriving DecidableEq

/-- A git repository: the list of its revisions, each revision being the list
of files it tracks. -/
structure GitRepo where
  commits : List (List String)
deriving DecidableEq

/-- The filesystem state. -/
structure FS where
  dirs : List String
  files : List (String × List Char)
  repos : List (String × GitRepo)
  rmDenied : List String
deriving DecidableEq

/-- Paths of all regular files. -/
def fileKeys (fs : FS) : List String := fs.files.map Prod.fst

/-- Whether `q` is `root` itself or lies strictly below directory `root`. -/
def underPath (root q : String) : Bool :=
  q == root || (root ++ "/").data.isPrefixOf q.data

/-- `fs.accessSync(p)`: succeeds iff the path exists. -/
def accessSync (p : String) (fs : FS) : Except JsErr Unit :=
  if p ∈ fs.dirs ∨ p ∈ fileKeys fs then .ok () else .error .enoent

/-- `fs.rmSync(p, {recursive:true})`: fails with `enoent` if the path does not
exist, with `eacces` if the OS refuses the deletion, and otherwise removes the
path and everything below it. -/
def rmSyncRec (p : String) (fs : FS) : Except JsErr FS :=
  if p ∈ fs.dirs ∨ p ∈ fileKeys fs then
    if p ∈ fs.rmDenied then .error .eacces
    else .ok { fs with
      dirs := fs.dirs.filter (fun d => ! underPath p d),
      files := fs.files.filter (fun f => ! underPath p f.1),
      repos := fs.repos.filter (fun r => ! underPath p r.1) }
  else .error .enoent

/-- `fs.mkdirSync(p)`: fails if the directory already exists. -/
def mkdirSync (p : String) (fs : FS) : Except JsErr FS :=
  if p ∈ fs.dirs then .error .eexist
  else .ok { fs with dirs := p :: fs.dirs }

/-- `fs.writeFileSync(p, content)`: create or overwrite a file. -/
def writeFileSync (p : String) (content : List Char) (fs : FS) : FS :=
  { fs with files := (p, content) :: fs.files.filter (fun f => ! (f.1 == p)) }

/-- The repository rooted at `p`, if any. -/
def repoAt (p : String) (fs : FS) : Option GitRepo :=
  (fs.repos.find? (fun r => r.1 == p)).map Prod.snd

/-- The files recorded at or below directory `root`. -/
def filesUnder (root : String) (fs : FS) : List (String × List Char) :=
  fs.files.filter (fun f => underPath root f.1)

/-- Model of `execSync("git init && git commit --allow-empty -m \"init\"")`
with working directory `p`: requires the directory to exist, creates the
repository there if absent, and appends one revision tracking no files. -/
def gitInitEmptyCommit (p : String) (fs : FS) : Except JsErr FS :=
  if p ∈ fs.dirs then
    .ok { fs with repos :=
      (p, ⟨((repoAt p fs).getD ⟨[]⟩).commits ++ [[]]⟩)
        :: fs.repos.filter (fun r => ! (r.1 == p)) }
  else .error .enoent

/-- Whether an `Except` result is a success. -/
def exceptOk {α : Type} : Except JsErr α → Bool
  | .ok _ => true
  | .error _ => false

/-! ## Cache/state file store (`debuggerUtils.js`) -/

/-- The `try { !fs.accessSync(cwd/cache) } catch (e) { fs.mkdirSync(cwd/cache) }`
snippet, inlined in the source in both `writeHevmCommand` and
`resetStateRepo`: create `cwd/cache` only when it is absent. -/
def ensureCacheDir (cwd : String) (fs : FS) : Except JsErr FS :=
  match accessSync (cwd ++ "/cache") fs with
  | .ok _ => .ok fs
  | .error _ => mkdirSync (cwd ++ "/cache") fs

/-- `writeHevmCommand(command, file, cwd)`: ensure the cache directory, then
write the command string to `cwd/file`. -/
def writeHevmCommand (command : List Char) (file cwd : String) (fs : FS) :
    Except JsErr FS :=
  match ensureCacheDir cwd fs with
  | .error e => .error e
  | .ok fs1 => .ok (writeFileSync (cwd ++ "/" ++ file) command fs1)

/-- `purgeCache(cwd)`: `try { fs.rmSync(cwd/cache, {recursive:true}) } catch
(e) { console.log(...) }` — the catch swallows every deletion error. -/
def purgeCache (cwd : String) (fs : FS) : Except JsErr FS :=
  match rmSyncRec (cwd ++ "/cache") fs with
  | .ok fs1 => .ok fs1
  | .error _ => .ok fs

/-- The delete step of `resetStateRepo`: `try { fs.rmSync(fullPath,
{recursive:true}) } catch (e) { console.log(...) }` — again a catch-all. -/
def rmSwallow (p : String) (fs : FS) : FS :=
  match rmSyncRec p fs with
  | .ok f => f
  | .error _ => fs

/-- `resetStateRepo(statePath, cwd)`: delete `cwd/statePath` (errors
swallowed), ensure the cache directory, recreate `cwd/statePath`, and run
`git init && git commit --allow-empty -m "init"` inside it. -/
def resetStateRepo (statePath cwd : String) (fs : FS) : Except JsErr FS :=
  match ensureCacheDir cwd (rmSwallow (cwd ++ "/" ++ statePath) fs) with
  | .error e => .error e
  | .ok fs2 =>
    match mkdirSync (cwd ++ "/" ++ statePath) fs2 with
    | .error e => .error e
    | .ok fs3 => gitInitEmptyCommit (cwd ++ "/" ++ statePath) fs3

/-- `checkStateRepoExistence(statePath, cwd)` just calls `resetStateRepo`. -/
def checkStateRepoExistence (statePath cwd : String) (fs : FS) :
    Except JsErr FS :=
  resetStateRepo statePath cwd fs

/-! ## Shell command builder and `deployContract`

The deploy command is a JavaScript template literal; each `\` before a line
break is a line continuation contributing nothing, so the fixed text between
the interpolated parameters is as in the segment constants below. -/

/-- `config` as consumed by `deployContract`. -/
structure Config where
  stateChecked : Bool
  storageChecked : Bool
  statePath : String
  hevmContractAddress : String
  hevmCaller : String
  tempHevmCommandFilename : String
deriving DecidableEq

/-- Fixed text before the bytecode. -/
def cmdSeg1 : List Char := "hevm exec\n    --code ".data

/-- Fixed text between the bytecode and the contract address. -/
def cmdSeg2 : List Char := "     --address ".data

/-- Fixed text between the contract address and the caller. -/
def cmdSeg3 : List Char := "     --create     --caller ".data

/-- Fixed text between the caller and the optional state flag. -/
def cmdSeg4 : List Char := "     --gas 0xffffffff     ".data

/-- Fixed text closing the template literal. -/
def cmdSeg5 : List Char := "\n    ".data

/-- The command string `deployContract` builds: the optional part is
`"--state " + cwd + "/" + config.statePath` exactly when state or storage
checking is enabled, and the empty string otherwise. -/
def deployCommand (bytecode : String) (config : Config) (cwd : String) :
    List Char :=
  cmdSeg1 ++ (bytecode.data ++ (cmdSeg2 ++ (config.hevmContractAddress.data ++
    (cmdSeg3 ++ (config.hevmCaller.data ++ (cmdSeg4 ++
      ((if config.stateChecked || config.storageChecked
        then ("--state " ++ cwd ++ "/" ++ config.statePath).data
        else []) ++ cmdSeg5)))))))

/-- `deployContract(bytecode, config, cwd)`: reset the state repository when
state or storage checking is enabled, build the command, and cache it via
`writeHevmCommand`.  The final `execSync` of the cached command invokes the
external engine and does not act on the modelled filesystem. -/
def deployContract (bytecode : String) (config : Config) (cwd : String)
    (fs : FS) : Except JsErr FS :=
  match (if config.stateChecked || config.storageChecked
         then checkStateRepoExistence config.statePath cwd fs
         else .ok fs) with
  | .error e => .error e
  | .ok fs1 =>
    writeHevmCommand (deployCommand bytecode config cwd)
      config.tempHevmCommandFilename cwd fs1

/-! ## Webview state and argument-input rendering

The webview page script persists `{functionSelectors, selectedFunction,
argsValues}` in the panel storage.  `cleanState` is applied to the persisted
state when the script restarts after a hide/show cycle. -/

/-- One entry of the scraped function table: rendered signature plus declared
argument tokens. -/
structure FnDescr where
  fnSig : String
  args : List String
deriving DecidableEq

/-- An `Object.entries` pair of the function table: key and descriptor. -/
abbrev FnEntry := String × FnDescr

/-- Persisted argument values, per function key and per 1-based input id. -/
abbrev ArgsValues := List (String × List (Nat × String))

/-- The persisted webview state.  `Option` models fields that may be absent
(JavaScript `undefined`/`null`). -/
structure WebviewState where
  functionSelectors : Option (List FnEntry)
  selectedFunction : Option FnEntry
  argsValues : ArgsValues
deriving DecidableEq

/-- `cleanState` from the webview script:
`{functionSelectors: state.functionSelectors || {}, selectedFunction:
state.selectedFunction || null, argsValues: {}}`. -/
def cleanState (s : WebviewState) : WebviewState :=
  { functionSelectors := some (s.functionSelectors.getD [])
    selectedFunction := s.selectedFunction
    argsValues := [] }

/-- The persisted value for function key `fn` and input id `i`, if any. -/
def lookupArg (av : ArgsValues) (fn : String) (i : Nat) : Option String :=
  match av.lookup fn with
  | none => none
  | some m => m.lookup i

/-- The prefill expression of `createArgsInputs`:
`(state.argsValues[fn] && state.argsValues[fn][i]) ? state.argsValues[fn][i]
: arg` — the stored string is used only when the per-function map exists and
the stored string is truthy (non-empty). -/
def prefill (av : ArgsValues) (fn : String) (i : Nat) (arg : String) :
    String :=
  match av.lookup fn with
  | none => arg
  | some m =>
    match m.lookup i with
    | none => arg
    | some v => if v = "" then arg else v

/-- `createArgsInputs`: on an empty click value return early; otherwise take
the first entry of the cached function table whose `fnSig` equals the selected
value, and render one input per declared argument, prefilled via `prefill`
with 1-based ids (`input.id = ++i`).  Returns the stored `selectedFunction`
entry and the rendered input values. -/
def createArgsInputs (fsel : List FnEntry) (av : ArgsValues) (sig : String) :
    Option (FnEntry × List String) :=
  if sig = "" then none
  else
    match (fsel.filter (fun e => e.2.fnSig == sig)).head? with
    | none => none
    | some fp =>
      some (fp, fp.2.args.enum.map (fun p => prefill av fp.1 (p.1 + 1) p.2))

/-- The webview script's restart sequence as it acts on the host's persisted
storage (`vscode.getState()`/`vscode.setState`).  On restart the script builds
`oldState = cleanState(getState())`, a purely local value: its `argsValues`
field is never read afterwards and `oldState` is never written back.  The
locals `functionSelectors` and `selectedFunction` come from `oldState`, and
`addOptionsToFunctionSelector(functionSelectors, selectedFunction)` runs
`setState({...getState(), functionSelectors})` — a spread of the *live*
storage, keeping the stored `selectedFunction` and `argsValues`.  When a
function was selected it sets the dropdown to its signature and clicks it, so
`createArgsInputs` runs with that signature: it stores the first matching
table entry via `setState({...getState(), selectedFunction})` and renders the
inputs, reading `argsValues` directly from `getState()`.  No step overwrites
the stored `argsValues`.  (The `none` arm of the inner lookup abstracts the
paths on which `createArgsInputs` stores nothing: an empty click value
returns before any `setState`.) -/
def webviewRestart (s : WebviewState) : WebviewState :=
  { functionSelectors := (cleanState s).functionSelectors
    selectedFunction :=
      match (cleanState s).selectedFunction with
      | none => s.selectedFunction
      | some sel =>
        match createArgsInputs ((cleanState s).functionSelectors.getD [])
            s.argsValues sel.2.fnSig with
        | none => s.selectedFunction
        | some fpvals => some fpvals.1
    argsValues := s.argsValues }

/-! ## Concrete states used by counterexamples and witnesses -/

/-- A filesystem where the cache directory exists but the OS refuses its
deletion. -/
def fsDenied : FS := ⟨["/w", "/w/cache"], [], [], ["/w/cache"]⟩

/-- A filesystem where the state directory exists but the OS refuses its
deletion. -/
def fsDeniedState : FS := ⟨["/w", "/w/st", "/w/cache"], [], [], ["/w/st"]⟩

/-- A filesystem where the cache directory already exists. -/
def fsWithCache : FS := ⟨["/w/cache"], [], [], []⟩

/-- A filesystem with no cache directory. -/
def fsNoCache : FS := ⟨["/x"], [], [], []⟩

/-- A persisted webview state with a selected function and one stored
argument value. -/
def wvStateFull : WebviewState :=
  ⟨some [("f", ⟨"foo()", ["uint256 a"]⟩)],
   some ("f", ⟨"foo()", ["uint256 a"]⟩), [("f", [(1, "7")])]⟩

/-- Function table with a stored empty-string argument value. -/
def fselCex : List FnEntry := [("f", ⟨"bar(uint256)", ["uint256 x"]⟩)]

/-- Stored argument values holding an empty string for input 1. -/
def avCex : ArgsValues := [("f", [(1, "")])]

/-- Function table with duplicate signatures. -/
def fselDup : List FnEntry :=
  [("a", ⟨"foo()", []⟩), ("b", ⟨"bar(uint256)", ["uint256 x"]⟩),
   ("c", ⟨"bar(uint256)", ["uint256 y"]⟩)]

/-- Stored argument values for the duplicate-signature table. -/
def avDup : ArgsValues := [("b", [(1, "42")])]

/-- The tail of the deploy command: optional state flag plus closing text. -/
def cmdTail (config : Config) (cwd : String) : List Char :=
  (if config.stateChecked || config.storageChecked
    then ("--state " ++ cwd ++ "/" ++ config.statePath).data else []) ++ cmdSeg5
/-- The first entry of the duplicate-signature table matching
`bar(uint256)`. -/
def fpDup : FnEntry := ("b", ⟨"bar(uint256)", ["uint256 x"]⟩)
/-- A fresh working directory for exercising the state repository. -/
def fsFreshC5 : FS := ⟨["/w"], [], [], []⟩
/-- The filesystem after resetting the state repository `st` in `/w`. -/
def fsStC5 : FS := ⟨["/w/st", "/w/cache", "/w"], [], [("/w/st", ⟨[[]]⟩)], []⟩
/-- Deploy configuration with state and storage checking off. -/
def cfgOffC4 : Config := ⟨false, false, "st", "0x42", "0xca", "t.txt"⟩
/-- Deploy configuration with state checking on. -/
def cfgOnC4 : Config := ⟨true, false, "st", "0x42", "0xca", "t.txt"⟩
/-- A fresh working directory for exercising `deployContract`. -/
def fsFreshC4 : FS := ⟨["/w"], [], [], []⟩
/-- Result of deploying with both flags off on `fsFreshC4`. -/
def fsOffC4 : FS :=
  ⟨["/w/cache", "/w"], [("/w/t.txt", deployCommand "6000" cfgOffC4 "/w")],
   [], []⟩
/-- Result of deploying with state checking on on `fsFreshC4`. -/
def fsOnC4 : FS :=
  ⟨["/w/st", "/w/cache", "/w"],
   [("/w/t.txt", deployCommand "6000" cfgOnC4 "/w")],
   [("/w/st", ⟨[[]]⟩)], []⟩
/-- Concrete configuration with state checking on, for the command claim. -/
def cfgOnC7 : Config := ⟨true, false, "st", "0x42", "0xca", "t.txt"⟩
/-- Concrete configuration with both flags off, for the command claim. -/
def cfgOffC7 : Config := ⟨false, false, "st", "0x42", "0xca", "t.txt"⟩

/-! ## Helper lemmas -/

lemma jsReplace_of_not_infix {pat : List Char} (rep : List Char) :
    ∀ s : List Char, ¬ (pat <:+: s) → jsReplace pat rep s = s := by
  intro s
  induction s with
  | nil =>
    intro h
    rw [jsReplace, if_neg]
    intro hpre
    exact h (List.isPrefixOf_iff_prefix.mp hpre).isInfix
  | cons c t ih =>
    intro h
    rw [jsReplace, if_neg]
    · rw [ih]
      intro hinf
      exact h (hinf.trans (List.suffix_cons c t).isInfix)
    · intro hpre
      exact h (List.isPrefixOf_iff_prefix.mp hpre).isInfix

lemma formatEvenBytes_prefixed (t : List Char) :
    formatEvenBytes ("0x".data ++ t) =
      if t.length % 2 = 1 then "0x0".data ++ t else "0x".data ++ t := by
  show formatEvenBytes ('0' :: 'x' :: t) = _
  rw [formatEvenBytes]
  have h2 : ('0' :: 'x' :: t).length % 2 = t.length % 2 := by
    simp [List.length_cons]
    omega
  by_cases hpar : t.length % 2 = 1
  · rw [if_pos (by rw [h2]; exact hpar), if_pos hpar, jsReplace,
      if_pos (by simp [List.isPrefixOf])]
    rfl
  · rw [if_neg (by rw [h2]; exact hpar), if_neg hpar]
    rfl

lemma head?_filter_spec {α : Type} (p : α → Bool) :
    ∀ (l : List α) (x : α), (l.filter p).head? = some x →
      p x = true ∧ l[l.findIdx p]? = some x := by
  intro l
  induction l with
  | nil => intro x h; simp at h
  | cons a t ih =>
    intro x h
    by_cases hpa : p a
    · rw [List.filter_cons_of_pos hpa] at h
      simp at h
      subst h
      simp [List.findIdx_cons, hpa]
    · rw [List.filter_cons_of_neg (by simp [hpa])] at h
      have := ih x h
      simp [List.findIdx_cons, hpa]
      exact this

/-! ## Claim theorems -/

/-- C1: in `checkInstallations` the huffc check is passed as a function
reference, which is truthy, so the aggregate equals the hevm check alone and
resolves to `true` whenever hevm is installed even when huffc is absent. -/
theorem checkInstallations_ignores_huffc (env : Env) :
    checkInstallations env = checkHevmInstallation env
    ∧ truthy JsVal.func = true
    ∧ checkInstallations ⟨true, false⟩ = true
    ∧ checkHuffcInstallation ⟨true, false⟩ = false := by
  refine ⟨?_, rfl, rfl, rfl⟩
  cases env with
  | mk h hu => cases h <;> rfl

/-- C2: all three components of the persisted WebviewState survive a panel
hide/show cycle.  `cleanState`'s cleared `argsValues` is only a local value:
the restart's `setState` calls spread the live `getState()`, so the stored
`argsValues` is untouched, `functionSelectors` is written back unchanged, and
re-selection stores the same entry again, since a persisted selection is the
first table entry matching its own signature (it was stored by
`createArgsInputs`, which always stores the first match of a non-empty
selected signature). -/
theorem webviewState_survives_restart (s : WebviewState)
    (fsel : List FnEntry)
    (h1 : s.functionSelectors = some fsel)
    (h2 : s.selectedFunction = none
      ∨ ∃ fp, s.selectedFunction = some fp ∧ fp.2.fnSig ≠ ""
          ∧ (fsel.filter (fun e => e.2.fnSig == fp.2.fnSig)).head?
              = some fp) :
    (webviewRestart s).functionSelectors = s.functionSelectors
    ∧ (webviewRestart s).selectedFunction = s.selectedFunction
    ∧ (webviewRestart s).argsValues = s.argsValues := by
  have hc1 : (cleanState s).functionSelectors = some fsel := by
    rw [cleanState]
    simp [h1]
  have hc2 : (cleanState s).selectedFunction = s.selectedFunction := rfl
  refine ⟨?_, ?_, rfl⟩
  · show (cleanState s).functionSelectors = s.functionSelectors
    rw [hc1, h1]
  · show (match (cleanState s).selectedFunction with
      | none => s.selectedFunction
      | some sel =>
        match createArgsInputs ((cleanState s).functionSelectors.getD [])
            s.argsValues sel.2.fnSig with
        | none => s.selectedFunction
        | some fpvals => some fpvals.1) = s.selectedFunction
    rw [hc2]
    rcases h2 with h2 | ⟨fp, hsel, hsig, hmatch⟩
    · rw [h2]
    · rw [hsel]
      show (match createArgsInputs ((cleanState s).functionSelectors.getD [])
          s.argsValues fp.2.fnSig with
        | none => some fp
        | some fpvals => some fpvals.1) = some fp
      have hg : (cleanState s).functionSelectors.getD [] = fsel := by
        rw [hc1]
        rfl
      rw [hg]
      have hca : createArgsInputs fsel s.argsValues fp.2.fnSig
          = some (fp, fp.2.args.enum.map
              (fun p => prefill s.argsValues fp.1 (p.1 + 1) p.2)) := by
        rw [createArgsInputs, if_neg hsig, hmatch]
      rw [hca]

/-- C2 witness: a concrete persisted state with all three components set
survives the restart unchanged. -/
theorem webviewState_survives_restart_witness :
    (webviewRestart wvStateFull).functionSelectors
      = wvStateFull.functionSelectors
    ∧ (webviewRestart wvStateFull).selectedFunction
      = wvStateFull.selectedFunction
    ∧ (webviewRestart wvStateFull).argsValues = wvStateFull.argsValues :=
  webviewState_survives_restart wvStateFull
    [("f", ⟨"foo()", ["uint256 a"]⟩)] rfl
    (Or.inr ⟨("f", ⟨"foo()", ["uint256 a"]⟩), rfl, by decide, rfl⟩)

/-- C3 counterexample: deleting the cache fails with a permission error (not
"not found"), yet `purgeCache` swallows it and returns normally instead of
raising it to the caller. -/
theorem purgeCache_swallows_eacces_cex :
    rmSyncRec "/w/cache" fsDenied = .error .eacces
    ∧ purgeCache "/w" fsDenied = .ok fsDenied := ⟨rfl, rfl⟩

/-- C3 (amended): every deletion failure is swallowed, not only "not found":
`purgeCache` never raises, and `resetStateRepo` continues past a denied
delete — the denied delete of an existing state directory surfaces later as
`eexist` from the recreate step, never as the deletion error itself. -/
theorem deletion_failures_swallowed (cwd statePath : String) (fs : FS)
    (h1 : cwd ++ "/" ++ statePath ∈ fs.rmDenied)
    (h2 : cwd ++ "/" ++ statePath ∈ fs.dirs) :
    exceptOk (purgeCache cwd fs) = true
    ∧ resetStateRepo statePath cwd fs = .error .eexist := by
  constructor
  · unfold purgeCache
    cases hrm : rmSyncRec (cwd ++ "/cache") fs <;> rfl
  · have hrm : rmSwallow (cwd ++ "/" ++ statePath) fs = fs := by
      unfold rmSwallow rmSyncRec
      rw [if_pos (Or.inl h2), if_pos h1]
    unfold resetStateRepo
    rw [hrm]
    unfold ensureCacheDir
    cases hacc : accessSync (cwd ++ "/cache") fs with
    | ok u =>
      show (match mkdirSync (cwd ++ "/" ++ statePath) fs with
        | .error e => Except.error e
        | .ok fs3 => gitInitEmptyCommit (cwd ++ "/" ++ statePath) fs3)
          = Except.error JsErr.eexist
      rw [mkdirSync, if_pos h2]
    | error e =>
      have hc1 : cwd ++ "/cache" ∉ fs.dirs := by
        intro hmem
        rw [accessSync, if_pos (Or.inl hmem)] at hacc
        cases hacc
      rw [mkdirSync, if_neg hc1]
      show (match mkdirSync (cwd ++ "/" ++ statePath)
              { fs with dirs := (cwd ++ "/cache") :: fs.dirs } with
        | .error e => Except.error e
        | .ok fs3 => gitInitEmptyCommit (cwd ++ "/" ++ statePath) fs3)
          = Except.error JsErr.eexist
      rw [mkdirSync, if_pos (List.mem_cons_of_mem _ h2)]

/-- C3 witness: the amended statement at a concrete filesystem. -/
theorem deletion_failures_swallowed_witness :
    exceptOk (purgeCache "/w" fsDeniedState) = true
    ∧ resetStateRepo "st" "/w" fsDeniedState = .error .eexist :=
  deletion_failures_swallowed "/w" "st" fsDeniedState (by decide) (by decide)

/-- C6: for `0x`-prefixed inputs `formatEvenBytes` keeps the prefix and
returns an even number of hex digits (even total length), it is idempotent,
and it maps `0xabc` to `0x0abc` and `0xabcd` to itself. -/
theorem formatEvenBytes_spec (s : List Char) (hp : "0x".data <+: s) :
    ("0x".data <+: formatEvenBytes s)
    ∧ (formatEvenBytes s).length % 2 = 0
    ∧ formatEvenBytes (formatEvenBytes s) = formatEvenBytes s
    ∧ formatEvenBytes "0xabc".data = "0x0abc".data
    ∧ formatEvenBytes "0xabcd".data = "0xabcd".data := by
  obtain ⟨t, rfl⟩ := hp
  rw [formatEvenBytes_prefixed]
  by_cases hpar : t.length % 2 = 1
  · rw [if_pos hpar]
    refine ⟨⟨'0' :: t, rfl⟩, ?_, ?_, by decide, by decide⟩
    · simp [List.length_append]
      omega
    · show formatEvenBytes ("0x".data ++ ('0' :: t)) = _
      rw [formatEvenBytes_prefixed]
      rw [if_neg (by simp [List.length_cons]; omega)]
      rfl
  · rw [if_neg hpar]
    refine ⟨⟨t, rfl⟩, ?_, ?_, by decide, by decide⟩
    · simp [List.length_append]
      omega
    · rw [formatEvenBytes_prefixed, if_neg hpar]

/-- C6 witness: the statement at the concrete input `0xabc`. -/
theorem formatEvenBytes_spec_witness :
    ("0x".data <+: formatEvenBytes "0xabc".data)
    ∧ (formatEvenBytes "0xabc".data).length % 2 = 0
    ∧ formatEvenBytes (formatEvenBytes "0xabc".data)
        = formatEvenBytes "0xabc".data
    ∧ formatEvenBytes "0xabc".data = "0x0abc".data
    ∧ formatEvenBytes "0xabcd".data = "0xabcd".data :=
  formatEvenBytes_spec "0xabc".data ⟨"abc".data, rfl⟩

/-- C9: ensuring the cache directory inside `writeHevmCommand` when
`cwd/cache` already exists does not raise (the write proceeds), and
`purgeCache` when the cache directory does not exist does not raise and
leaves the filesystem unchanged. -/
theorem cacheDir_ops_do_not_raise (command : List Char)
    (file cwd cwd2 : String) (fs fs2 : FS) :
    (cwd ++ "/cache" ∈ fs.dirs →
      writeHevmCommand command file cwd fs
        = .ok (writeFileSync (cwd ++ "/" ++ file) command fs))
    ∧ (cwd2 ++ "/cache" ∉ fs2.dirs → cwd2 ++ "/cache" ∉ fileKeys fs2 →
      purgeCache cwd2 fs2 = .ok fs2) := by
  constructor
  · intro h
    unfold writeHevmCommand ensureCacheDir accessSync
    rw [if_pos (Or.inl h)]
  · intro h1 h2
    unfold purgeCache rmSyncRec
    rw [if_neg (fun hor => hor.elim h1 h2)]

/-- C9 witness: the statement at concrete filesystems. -/
theorem cacheDir_ops_do_not_raise_witness :
    writeHevmCommand "cmd".data "t.txt" "/w" fsWithCache
      = .ok (writeFileSync "/w/t.txt" "cmd".data fsWithCache)
    ∧ purgeCache "/x" fsNoCache = .ok fsNoCache :=
  ⟨(cacheDir_ops_do_not_raise "cmd".data "t.txt" "/w" "/x" fsWithCache
      fsNoCache).1 (by decide),
   (cacheDir_ops_do_not_raise "cmd".data "t.txt" "/w" "/x" fsWithCache
      fsNoCache).2 (by decide) (by decide)⟩

/-- C10: an odd-length string not containing `0x` is returned unchanged by
`formatEvenBytes` (the replace is a no-op), so it stays odd. -/
theorem formatEvenBytes_unprefixed_noop (s : List Char)
    (h1 : s.length % 2 = 1) (h2 : ¬ ("0x".data <:+: s)) :
    formatEvenBytes s = s ∧ (formatEvenBytes s).length % 2 = 1 := by
  have heq : formatEvenBytes s = s := by
    rw [formatEvenBytes, if_pos h1]
    exact jsReplace_of_not_infix _ s h2
  exact ⟨heq, by rw [heq]; exact h1⟩

/-- C10 witness: the statement at the concrete input `abc`. -/
theorem formatEvenBytes_unprefixed_noop_witness :
    ("abc".data.length % 2 = 1)
    ∧ ¬ ("0x".data <:+: "abc".data)
    ∧ formatEvenBytes "abc".data = "abc".data
    ∧ (formatEvenBytes "abc".data).length % 2 = 1 :=
  ⟨by decide, by decide,
   (formatEvenBytes_unprefixed_noop "abc".data (by decide) (by decide)).1,
   (formatEvenBytes_unprefixed_noop "abc".data (by decide) (by decide)).2⟩

/-- C8 counterexample: a persisted value exists for the selected function and
argument but is the empty string, and the rendered field is prefilled with
the declared default token instead of the persisted value. -/
theorem createArgsInputs_empty_string_cex :
    lookupArg avCex "f" 1 = some ""
    ∧ createArgsInputs fselCex avCex "bar(uint256)"
        = some (("f", ⟨"bar(uint256)", ["uint256 x"]⟩), ["uint256 x"])
    ∧ ("uint256 x" : String) ≠ "" := by
  refine ⟨rfl, ?_, by decide⟩
  decide

/-- C8 (amended): on a non-empty selection the router takes the first entry
of the cached function table whose signature equals the selected value,
renders exactly one input per declared argument, and prefills each field with
the persisted value for that function/argument pair when one exists and is
non-empty, and with the argument's declared default token when no value is
persisted or the persisted value is the empty string. -/
theorem createArgsInputs_spec (fsel : List FnEntry) (av : ArgsValues)
    (sig : String) (fp : FnEntry)
    (h0 : sig ≠ "")
    (h1 : (fsel.filter (fun e => e.2.fnSig == sig)).head? = some fp) :
    fp.2.fnSig = sig
    ∧ fsel[fsel.findIdx (fun e => e.2.fnSig == sig)]? = some fp
    ∧ createArgsInputs fsel av sig
        = some (fp, fp.2.args.enum.map (fun p => prefill av fp.1 (p.1 + 1) p.2))
    ∧ (fp.2.args.enum.map (fun p => prefill av fp.1 (p.1 + 1) p.2)).length
        = fp.2.args.length
    ∧ (∀ i arg v, lookupArg av fp.1 (i + 1) = some v → v ≠ "" →
        prefill av fp.1 (i + 1) arg = v)
    ∧ (∀ i arg, lookupArg av fp.1 (i + 1) = none →
        prefill av fp.1 (i + 1) arg = arg)
    ∧ (∀ i arg, lookupArg av fp.1 (i + 1) = some "" →
        prefill av fp.1 (i + 1) arg = arg) := by
  have hfind := head?_filter_spec (fun e => e.2.fnSig == sig) fsel fp h1
  refine ⟨by simpa using hfind.1, hfind.2, ?_, by simp, ?_, ?_, ?_⟩
  · rw [createArgsInputs, if_neg h0, h1]
  · intro i arg v hl hv
    unfold lookupArg at hl
    unfold prefill
    cases hm : av.lookup fp.1 with
    | none => rw [hm] at hl; cases hl
    | some m =>
      rw [hm] at hl
      have hl2 : m.lookup (i + 1) = some v := hl
      show (match m.lookup (i + 1) with
        | none => arg
        | some v => if v = "" then arg else v) = v
      rw [hl2]
      show (if v = "" then arg else v) = v
      rw [if_neg hv]
  · intro i arg hl
    unfold lookupArg at hl
    unfold prefill
    cases hm : av.lookup fp.1 with
    | none => rfl
    | some m =>
      rw [hm] at hl
      have hl2 : m.lookup (i + 1) = none := hl
      show (match m.lookup (i + 1) with
        | none => arg
        | some v => if v = "" then arg else v) = arg
      rw [hl2]
  · intro i arg hl
    unfold lookupArg at hl
    unfold prefill
    cases hm : av.lookup fp.1 with
    | none => rw [hm] at hl
    | some m =>
      rw [hm] at hl
      have hl2 : m.lookup (i + 1) = some "" := hl
      show (match m.lookup (i + 1) with
        | none => arg
        | some v => if v = "" then arg else v) = arg
      rw [hl2]
      simp

/-- C8 witness: the amended statement at the duplicate-signature table with a
stored value for the first matching entry. -/
theorem createArgsInputs_spec_witness :
    fpDup.2.fnSig = "bar(uint256)"
    ∧ fselDup[fselDup.findIdx (fun e => e.2.fnSig == "bar(uint256)")]?
        = some fpDup
    ∧ createArgsInputs fselDup avDup "bar(uint256)" = some (fpDup, ["42"])
    ∧ prefill avDup "b" 1 "uint256 x" = "42"
    ∧ prefill avDup "b" 2 "uint256 x" = "uint256 x" := by
  have h := createArgsInputs_spec fselDup avDup "bar(uint256)" fpDup
    (by decide) rfl
  exact ⟨h.1, h.2.1, h.2.2.1, h.2.2.2.2.1 0 "uint256 x" "42" rfl (by decide),
    h.2.2.2.2.2.1 1 "uint256 x" rfl⟩

/-! ## Filesystem lemmas for the state repository -/

lemma repoAt_congr {fs gs : FS} (p : String) (h : fs.repos = gs.repos) :
    repoAt p fs = repoAt p gs := by
  unfold repoAt
  rw [h]

lemma rm_ok_spec {p : String} {fs f : FS} (h : rmSyncRec p fs = .ok f) :
    p ∉ f.dirs ∧ repoAt p f = none ∧ f.rmDenied = fs.rmDenied := by
  unfold rmSyncRec at h
  by_cases h1 : p ∈ fs.dirs ∨ p ∈ fileKeys fs
  · rw [if_pos h1] at h
    by_cases h2 : p ∈ fs.rmDenied
    · rw [if_pos h2] at h
      cases h
    · rw [if_neg h2] at h
      injection h with h
      subst h
      refine ⟨?_, ?_, rfl⟩
      · intro hmem
        have hcond := (List.mem_filter.mp hmem).2
        simp [underPath] at hcond
      · have hfind : (fs.repos.filter (fun r => ! underPath p r.1)).find?
            (fun r => r.1 == p) = none := by
          rw [List.find?_eq_none]
          intro r hr hbeq
          have h3 := (List.mem_filter.mp hr).2
          have h4 : r.1 = p := by simpa using hbeq
          rw [h4] at h3
          simp [underPath] at h3
        simp [repoAt, hfind]
  · rw [if_neg h1] at h
    cases h

lemma ensureCacheDir_ok (cwd : String) (fs : FS) :
    ∃ fs1, ensureCacheDir cwd fs = .ok fs1
      ∧ fs1.files = fs.files ∧ fs1.repos = fs.repos
      ∧ fs1.rmDenied = fs.rmDenied
      ∧ (fs1.dirs = fs.dirs ∨ fs1.dirs = (cwd ++ "/cache") :: fs.dirs) := by
  unfold ensureCacheDir accessSync
  by_cases h : cwd ++ "/cache" ∈ fs.dirs ∨ cwd ++ "/cache" ∈ fileKeys fs
  · rw [if_pos h]
    exact ⟨fs, rfl, rfl, rfl, rfl, Or.inl rfl⟩
  · rw [if_neg h]
    refine ⟨{ fs with dirs := (cwd ++ "/cache") :: fs.dirs }, ?_, rfl, rfl,
      rfl, Or.inr rfl⟩
    show mkdirSync (cwd ++ "/cache") fs = _
    rw [mkdirSync, if_neg (fun hm => h (Or.inl hm))]

lemma writeHevmCommand_ok (command : List Char) (file cwd : String) (fs : FS) :
    ∃ fs2, writeHevmCommand command file cwd fs = .ok fs2
      ∧ fs2.repos = fs.repos ∧ fs2.rmDenied = fs.rmDenied
      ∧ (fs2.dirs = fs.dirs ∨ fs2.dirs = (cwd ++ "/cache") :: fs.dirs)
      ∧ fs2.files = (cwd ++ "/" ++ file, command)
          :: fs.files.filter (fun f => ! (f.1 == cwd ++ "/" ++ file)) := by
  obtain ⟨fs1, h1, hf, hr, hd, hdirs⟩ := ensureCacheDir_ok cwd fs
  refine ⟨writeFileSync (cwd ++ "/" ++ file) command fs1, ?_, ?_, ?_, ?_, ?_⟩
  · unfold writeHevmCommand
    rw [h1]
  · simpa [writeFileSync] using hr
  · simpa [writeFileSync] using hd
  · simpa [writeFileSync] using hdirs
  · simp [writeFileSync, hf]

lemma rmSwallow_repo (p : String) (fs : FS)
    (hB : p ∉ fs.dirs → repoAt p fs = none) :
    p ∉ (rmSwallow p fs).dirs → repoAt p (rmSwallow p fs) = none := by
  unfold rmSwallow
  cases h : rmSyncRec p fs with
  | ok f => exact fun _ => (rm_ok_spec h).2.1
  | error e => exact hB

lemma rmSwallow_rmDenied (p : String) (fs : FS) :
    (rmSwallow p fs).rmDenied = fs.rmDenied := by
  unfold rmSwallow
  cases h : rmSyncRec p fs with
  | ok f => exact (rm_ok_spec h).2.2
  | error e => rfl

lemma rmSwallow_not_dir (p : String) (fs : FS) (hA : p ∉ fs.rmDenied) :
    p ∉ (rmSwallow p fs).dirs := by
  unfold rmSwallow
  cases h : rmSyncRec p fs with
  | ok f => exact (rm_ok_spec h).1
  | error e =>
    unfold rmSyncRec at h
    by_cases h1 : p ∈ fs.dirs ∨ p ∈ fileKeys fs
    · rw [if_pos h1, if_neg hA] at h
      cases h
    · exact fun hmem => h1 (Or.inl hmem)

lemma mkdir_ok_spec {p : String} {fs f : FS} (h : mkdirSync p fs = .ok f) :
    f.dirs = p :: fs.dirs ∧ f.files = fs.files ∧ f.repos = fs.repos
    ∧ f.rmDenied = fs.rmDenied ∧ p ∉ fs.dirs := by
  unfold mkdirSync at h
  by_cases hmem : p ∈ fs.dirs
  · rw [if_pos hmem] at h
    cases h
  · rw [if_neg hmem] at h
    injection h with h
    subst h
    exact ⟨rfl, rfl, rfl, rfl, hmem⟩

lemma gitInit_ok_spec {p : String} {fs f : FS}
    (h : gitInitEmptyCommit p fs = .ok f) (hnone : repoAt p fs = none) :
    repoAt p f = some ⟨[[]]⟩ ∧ f.dirs = fs.dirs ∧ f.rmDenied = fs.rmDenied := by
  unfold gitInitEmptyCommit at h
  by_cases hmem : p ∈ fs.dirs
  · rw [if_pos hmem] at h
    injection h with h
    subst h
    refine ⟨?_, rfl, rfl⟩
    rw [hnone]
    unfold repoAt
    simp [List.find?]
  · rw [if_neg hmem] at h
    cases h

lemma resetStateRepo_ok_post {statePath cwd : String} {fs fs4 : FS}
    (hB : cwd ++ "/" ++ statePath ∉ fs.dirs →
      repoAt (cwd ++ "/" ++ statePath) fs = none)
    (h : resetStateRepo statePath cwd fs = .ok fs4) :
    (cwd ++ "/" ++ statePath) ∈ fs4.dirs
    ∧ repoAt (cwd ++ "/" ++ statePath) fs4 = some ⟨[[]]⟩
    ∧ fs4.rmDenied = fs.rmDenied := by
  unfold resetStateRepo at h
  obtain ⟨fs2, h2, hf2, hr2, hd2, hdirs2⟩ :=
    ensureCacheDir_ok cwd (rmSwallow (cwd ++ "/" ++ statePath) fs)
  rw [h2] at h
  have h22 : (match mkdirSync (cwd ++ "/" ++ statePath) fs2 with
    | Except.error e => Except.error e
    | Except.ok fs3 =>
      gitInitEmptyCommit (cwd ++ "/" ++ statePath) fs3) = Except.ok fs4 := h
  cases hm : mkdirSync (cwd ++ "/" ++ statePath) fs2 with
  | error e =>
    rw [hm] at h22
    simp at h22
  | ok fs3 =>
    rw [hm] at h22
    have h3 : gitInitEmptyCommit (cwd ++ "/" ++ statePath) fs3
        = .ok fs4 := h22
    obtain ⟨hm1, hm2, hm3, hm4, hm5⟩ := mkdir_ok_spec hm
    have hnotin1 : (cwd ++ "/" ++ statePath)
        ∉ (rmSwallow (cwd ++ "/" ++ statePath) fs).dirs := by
      intro hin
      cases hdirs2 with
      | inl he => exact hm5 (he ▸ hin)
      | inr he => exact hm5 (he ▸ List.mem_cons_of_mem _ hin)
    have hrepo3 : repoAt (cwd ++ "/" ++ statePath) fs3 = none := by
      calc repoAt (cwd ++ "/" ++ statePath) fs3
          = repoAt (cwd ++ "/" ++ statePath) fs2 := repoAt_congr _ hm3
        _ = repoAt (cwd ++ "/" ++ statePath)
            (rmSwallow (cwd ++ "/" ++ statePath) fs) := repoAt_congr _ hr2
        _ = none := rmSwallow_repo _ fs hB hnotin1
    obtain ⟨hg1, hg2, hg3⟩ := gitInit_ok_spec h3 hrepo3
    refine ⟨?_, hg1, ?_⟩
    · rw [hg2, hm1]
      exact List.mem_cons_self _ _
    · rw [hg3, hm4, hd2, rmSwallow_rmDenied]

lemma resetStateRepo_succeeds (statePath cwd : String) (fs : FS)
    (hA : cwd ++ "/" ++ statePath ∉ fs.rmDenied)
    (hD : cwd ++ "/" ++ statePath ≠ cwd ++ "/cache") :
    exceptOk (resetStateRepo statePath cwd fs) = true := by
  unfold resetStateRepo
  obtain ⟨fs2, h2, hf2, hr2, hd2, hdirs2⟩ :=
    ensureCacheDir_ok cwd (rmSwallow (cwd ++ "/" ++ statePath) fs)
  rw [h2]
  have hnot1 := rmSwallow_not_dir (cwd ++ "/" ++ statePath) fs hA
  have hnot2 : (cwd ++ "/" ++ statePath) ∉ fs2.dirs := by
    cases hdirs2 with
    | inl he => rw [he]; exact hnot1
    | inr he =>
      rw [he]
      intro hmem
      rcases List.mem_cons.mp hmem with h | h
      · exact hD h
      · exact hnot1 h
  show exceptOk (match mkdirSync (cwd ++ "/" ++ statePath) fs2 with
    | Except.error e => Except.error e
    | Except.ok fs3 =>
      gitInitEmptyCommit (cwd ++ "/" ++ statePath) fs3) = true
  rw [mkdirSync, if_neg hnot2]
  show exceptOk (gitInitEmptyCommit (cwd ++ "/" ++ statePath)
    { fs2 with dirs := (cwd ++ "/" ++ statePath) :: fs2.dirs }) = true
  rw [gitInitEmptyCommit, if_pos (List.mem_cons_self _ _)]
  rfl

/-- C5: on a filesystem that does not refuse the deletion, whose repository
records is consistent at the state path, and whose state path is not the cache
directory, `resetStateRepo` succeeds; afterwards `cwd/statePath` exists and
holds a repository with exactly one revision tracking no files, and calling
`resetStateRepo` again also succeeds and re-establishes the same
post-condition. -/
theorem resetStateRepo_spec (statePath cwd : String) (fs : FS)
    (hA : cwd ++ "/" ++ statePath ∉ fs.rmDenied)
    (hB : cwd ++ "/" ++ statePath ∉ fs.dirs →
      repoAt (cwd ++ "/" ++ statePath) fs = none)
    (hD : cwd ++ "/" ++ statePath ≠ cwd ++ "/cache") :
    exceptOk (resetStateRepo statePath cwd fs) = true
    ∧ ∀ fs1, resetStateRepo statePath cwd fs = .ok fs1 →
        ((cwd ++ "/" ++ statePath) ∈ fs1.dirs
         ∧ repoAt (cwd ++ "/" ++ statePath) fs1 = some ⟨[[]]⟩
         ∧ exceptOk (resetStateRepo statePath cwd fs1) = true
         ∧ ∀ fs2, resetStateRepo statePath cwd fs1 = .ok fs2 →
             ((cwd ++ "/" ++ statePath) ∈ fs2.dirs
              ∧ repoAt (cwd ++ "/" ++ statePath) fs2 = some ⟨[[]]⟩)) := by
  refine ⟨resetStateRepo_succeeds statePath cwd fs hA hD, ?_⟩
  intro fs1 h1
  have post1 := resetStateRepo_ok_post hB h1
  have hA1 : cwd ++ "/" ++ statePath ∉ fs1.rmDenied := by
    rw [post1.2.2]
    exact hA
  have hB1 : cwd ++ "/" ++ statePath ∉ fs1.dirs →
      repoAt (cwd ++ "/" ++ statePath) fs1 = none :=
    fun hn => absurd post1.1 hn
  refine ⟨post1.1, post1.2.1,
    resetStateRepo_succeeds statePath cwd fs1 hA1 hD, ?_⟩
  intro fs2 h2
  have post2 := resetStateRepo_ok_post hB1 h2
  exact ⟨post2.1, post2.2.1⟩

/-- C5 witness: both calls evaluated on a concrete fresh filesystem. -/
theorem resetStateRepo_spec_witness :
    resetStateRepo "st" "/w" fsFreshC5 = .ok fsStC5
    ∧ exceptOk (resetStateRepo "st" "/w" fsFreshC5) = true
    ∧ "/w/st" ∈ fsStC5.dirs
    ∧ repoAt "/w/st" fsStC5 = some ⟨[[]]⟩
    ∧ exceptOk (resetStateRepo "st" "/w" fsStC5) = true
    ∧ resetStateRepo "st" "/w" fsStC5 = .ok fsStC5 := by
  have h := resetStateRepo_spec "st" "/w" fsFreshC5 (by decide)
    (fun _ => rfl) (by decide)
  have h1 := h.2 fsStC5 rfl
  exact ⟨rfl, h.1, h1.1, h1.2.1, h1.2.2.1, by rfl⟩

lemma filter_filter_sub {α : Type} (u q : α → Bool)
    (h : ∀ a, u a = true → q a = true) (l : List α) :
    (l.filter q).filter u = l.filter u := by
  induction l with
  | nil => rfl
  | cons a t ih =>
    by_cases hq : q a
    · rw [List.filter_cons_of_pos hq]
      by_cases hu : u a
      · rw [List.filter_cons_of_pos hu, List.filter_cons_of_pos hu, ih]
      · rw [List.filter_cons_of_neg (by simp [hu]),
          List.filter_cons_of_neg (by simp [hu]), ih]
    · have hu : ¬ u a = true := fun hua => hq (h a hua)
      rw [List.filter_cons_of_neg (by simp [hq]),
        List.filter_cons_of_neg (by simp [hu]), ih]

/-- C4: `deployContract` touches the state repository iff state or storage
checking is enabled: with both flags off, existence of the state directory,
its repository, and all files under it are unchanged; with a flag on, a
successful deploy leaves the state directory present and holding a freshly
reset repository with exactly one empty revision, established before the
cached command is executed. -/
theorem deployContract_state_frame (bytecode cwd : String) (config : Config)
    (fs : FS)
    (hne1 : cwd ++ "/" ++ config.statePath ≠ cwd ++ "/cache")
    (hne2 : underPath (cwd ++ "/" ++ config.statePath)
      (cwd ++ "/" ++ config.tempHevmCommandFilename) = false)
    (hB : cwd ++ "/" ++ config.statePath ∉ fs.dirs →
      repoAt (cwd ++ "/" ++ config.statePath) fs = none) :
    ((config.stateChecked || config.storageChecked) = false →
      ∀ fs9, deployContract bytecode config cwd fs = .ok fs9 →
        (((cwd ++ "/" ++ config.statePath) ∈ fs9.dirs ↔
            (cwd ++ "/" ++ config.statePath) ∈ fs.dirs)
         ∧ repoAt (cwd ++ "/" ++ config.statePath) fs9
             = repoAt (cwd ++ "/" ++ config.statePath) fs
         ∧ filesUnder (cwd ++ "/" ++ config.statePath) fs9
             = filesUnder (cwd ++ "/" ++ config.statePath) fs))
    ∧ ((config.stateChecked || config.storageChecked) = true →
      ∀ fs9, deployContract bytecode config cwd fs = .ok fs9 →
        ((cwd ++ "/" ++ config.statePath) ∈ fs9.dirs
         ∧ repoAt (cwd ++ "/" ++ config.statePath) fs9 = some ⟨[[]]⟩)) := by
  constructor
  · intro hf fs9 h
    unfold deployContract at h
    rw [hf] at h
    have h0 : writeHevmCommand (deployCommand bytecode config cwd)
        config.tempHevmCommandFilename cwd fs = .ok fs9 := h
    obtain ⟨fs2, hw, hrepos, hrm, hdirs, hfiles⟩ :=
      writeHevmCommand_ok (deployCommand bytecode config cwd)
        config.tempHevmCommandFilename cwd fs
    rw [hw] at h0
    injection h0 with h0
    subst h0
    refine ⟨?_, repoAt_congr _ hrepos, ?_⟩
    · cases hdirs with
      | inl he => rw [he]
      | inr he =>
        rw [he]
        simp [List.mem_cons, hne1]
    · unfold filesUnder
      rw [hfiles]
      rw [List.filter_cons_of_neg (by simp [hne2])]
      exact filter_filter_sub _ _
        (fun f hu => by
          have : ¬ f.1 = cwd ++ "/" ++ config.tempHevmCommandFilename := by
            intro he
            rw [he] at hu
            rw [hne2] at hu
            cases hu
          simpa using this) fs.files
  · intro hf fs9 h
    unfold deployContract at h
    rw [hf] at h
    have h0 : (match checkStateRepoExistence config.statePath cwd fs with
      | Except.error e => Except.error e
      | Except.ok fs1 =>
        writeHevmCommand (deployCommand bytecode config cwd)
          config.tempHevmCommandFilename cwd fs1) = Except.ok fs9 := h
    cases hr : checkStateRepoExistence config.statePath cwd fs with
    | error e =>
      rw [hr] at h0
      simp at h0
    | ok fs1 =>
      rw [hr] at h0
      have hr2 : resetStateRepo config.statePath cwd fs = .ok fs1 := hr
      have post := resetStateRepo_ok_post hB hr2
      obtain ⟨fs2, hw, hrepos, hrm, hdirs, hfiles⟩ :=
        writeHevmCommand_ok (deployCommand bytecode config cwd)
          config.tempHevmCommandFilename cwd fs1
      have h1 : writeHevmCommand (deployCommand bytecode config cwd)
          config.tempHevmCommandFilename cwd fs1 = .ok fs9 := h0
      rw [hw] at h1
      injection h1 with h1
      subst h1
      constructor
      · cases hdirs with
        | inl he => rw [he]; exact post.1
        | inr he => rw [he]; exact List.mem_cons_of_mem _ post.1
      · rw [repoAt_congr _ hrepos]
        exact post.2.1

/-- C4 witness: both flag settings evaluated on a concrete filesystem. -/
theorem deployContract_state_frame_witness :
    deployContract "6000" cfgOffC4 "/w" fsFreshC4 = .ok fsOffC4
    ∧ ("/w/st" ∈ fsOffC4.dirs ↔ "/w/st" ∈ fsFreshC4.dirs)
    ∧ repoAt "/w/st" fsOffC4 = repoAt "/w/st" fsFreshC4
    ∧ filesUnder "/w/st" fsOffC4 = filesUnder "/w/st" fsFreshC4
    ∧ deployContract "6000" cfgOnC4 "/w" fsFreshC4 = .ok fsOnC4
    ∧ "/w/st" ∈ fsOnC4.dirs
    ∧ repoAt "/w/st" fsOnC4 = some ⟨[[]]⟩ := by
  have hoff := (deployContract_state_frame "6000" "/w" cfgOffC4 fsFreshC4
    (by decide) (by decide) (fun _ => rfl)).1 rfl fsOffC4 (by rfl)
  have hon := (deployContract_state_frame "6000" "/w" cfgOnC4 fsFreshC4
    (by decide) (by decide) (fun _ => rfl)).2 rfl fsOnC4 (by rfl)
  exact ⟨by rfl, hoff.1, hoff.2.1, hoff.2.2, by rfl, hon.1, hon.2⟩

/-! ## Lemmas about adjacent pairs, for the command-string claim -/

lemma adjPairs_fst_mem {x y : Char} :
    ∀ {l : List Char}, (x, y) ∈ adjPairs l → x ∈ l := by
  intro l
  induction l with
  | nil => intro h; simp [adjPairs] at h
  | cons a t ih =>
    intro h
    cases t with
    | nil => simp [adjPairs] at h
    | cons b t2 =>
      rw [adjPairs] at h
      rcases List.mem_cons.mp h with h | h
      · obtain ⟨h1, h2⟩ := Prod.mk.inj h
        subst h1
        exact List.mem_cons_self _ _
      · exact List.mem_cons_of_mem _ (ih h)

lemma mem_adjPairs_cons {p : Char × Char} (c : Char) {l : List Char}
    (h : p ∈ adjPairs l) : p ∈ adjPairs (c :: l) := by
  cases l with
  | nil => simp [adjPairs] at h
  | cons d t =>
    rw [adjPairs]
    exact List.mem_cons_of_mem _ h

lemma mem_adjPairs_append_right {p : Char × Char} (a : List Char)
    {b : List Char} (h : p ∈ adjPairs b) : p ∈ adjPairs (a ++ b) := by
  induction a with
  | nil => simpa using h
  | cons c t ih => exact mem_adjPairs_cons c ih

lemma pair_of_state_infix {l : List Char}
    (h : "--state".data <:+: l) : ('-', 's') ∈ adjPairs l := by
  obtain ⟨u, v, huv⟩ := h
  subst huv
  rw [List.append_assoc]
  apply mem_adjPairs_append_right
  show ('-', 's') ∈ adjPairs ('-' :: '-' :: 's' :: ("tate".data ++ v))
  rw [adjPairs]
  apply List.mem_cons_of_mem
  rw [adjPairs]
  exact List.mem_cons_self _ _

lemma adjPairs_append :
    ∀ (a b : List Char), a ≠ [] → b ≠ [] →
      adjPairs (a ++ b)
        = adjPairs a ++ (lastD 'A' a, b.headD 'A') :: adjPairs b := by
  intro a
  induction a with
  | nil => intro b ha hb; exact absurd rfl ha
  | cons c t ih =>
    intro b ha hb
    cases t with
    | nil =>
      cases b with
      | nil => exact absurd rfl hb
      | cons d t2 => rfl
    | cons c2 t2 =>
      have ih2 := ih b (by simp) hb
      show adjPairs (c :: c2 :: (t2 ++ b)) = _
      rw [adjPairs]
      have hstep : adjPairs (c2 :: (t2 ++ b))
          = adjPairs ((c2 :: t2) ++ b) := rfl
      rw [hstep, ih2]
      rfl

lemma headD_append_left {a : List Char} (b : List Char) (d : Char)
    (ha : a ≠ []) : (a ++ b).headD d = a.headD d := by
  cases a with
  | nil => exact absurd rfl ha
  | cons c t => rfl

lemma noDashS_append {a b : List Char}
    (ha : ('-', 's') ∉ adjPairs a) (hb : ('-', 's') ∉ adjPairs b)
    (hbd : lastD 'A' a = '-' → b.headD 'A' = 's' → False) :
    ('-', 's') ∉ adjPairs (a ++ b) := by
  rcases eq_or_ne a [] with rfl | hane
  · simpa using hb
  rcases eq_or_ne b [] with rfl | hbne
  · simpa using ha
  rw [adjPairs_append a b hane hbne]
  intro h
  rcases List.mem_append.mp h with h | h
  · exact ha h
  · rcases List.mem_cons.mp h with h | h
    · obtain ⟨h1, h2⟩ := Prod.mk.inj h
      exact hbd h1.symm h2.symm
    · exact hb h

lemma deployCommand_eq_tail (bytecode : String) (config : Config)
    (cwd : String) :
    deployCommand bytecode config cwd
      = cmdSeg1 ++ (bytecode.data ++ (cmdSeg2
        ++ (config.hevmContractAddress.data ++ (cmdSeg3
        ++ (config.hevmCaller.data ++ (cmdSeg4 ++ cmdTail config cwd)))))) :=
  rfl

lemma deployCommand_flags_off_shape (bytecode : String) (config : Config)
    (cwd : String)
    (hflag : (config.stateChecked || config.storageChecked) = false) :
    deployCommand bytecode config cwd
      = cmdSeg1 ++ (bytecode.data ++ (cmdSeg2
        ++ (config.hevmContractAddress.data ++ (cmdSeg3
        ++ (config.hevmCaller.data ++ (cmdSeg4 ++ cmdSeg5)))))) := by
  rw [deployCommand, hflag]
  simp

lemma state_infix_of_flags_on (bytecode : String) (config : Config)
    (cwd : String)
    (hflag : (config.stateChecked || config.storageChecked) = true) :
    ("--state " ++ cwd ++ "/" ++ config.statePath).data <:+:
      deployCommand bytecode config cwd := by
  refine ⟨cmdSeg1 ++ (bytecode.data ++ (cmdSeg2
    ++ (config.hevmContractAddress.data ++ (cmdSeg3
    ++ (config.hevmCaller.data ++ cmdSeg4))))), cmdSeg5, ?_⟩
  rw [deployCommand, hflag]
  simp [List.append_assoc]

lemma deployCommand_no_state_of_flags_off (bytecode : String)
    (config : Config) (cwd : String)
    (hflag : (config.stateChecked || config.storageChecked) = false)
    (hB2 : '-' ∉ bytecode.data)
    (hA2 : '-' ∉ config.hevmContractAddress.data)
    (hC2 : '-' ∉ config.hevmCaller.data) :
    ¬ ("--state".data <:+: deployCommand bytecode config cwd) := by
  intro hinf
  rw [deployCommand_flags_off_shape bytecode config cwd hflag] at hinf
  have hp := pair_of_state_infix hinf
  have n45 : ('-', 's') ∉ adjPairs (cmdSeg4 ++ cmdSeg5) := by decide
  have nC : ('-', 's') ∉ adjPairs config.hevmCaller.data :=
    fun h => hC2 (adjPairs_fst_mem h)
  have nC45 : ('-', 's') ∉ adjPairs
      (config.hevmCaller.data ++ (cmdSeg4 ++ cmdSeg5)) :=
    noDashS_append nC n45 (fun _ h2 => by
      rw [headD_append_left cmdSeg5 'A' (by decide)] at h2
      exact absurd h2 (by decide))
  have n3 : ('-', 's') ∉ adjPairs (cmdSeg3
      ++ (config.hevmCaller.data ++ (cmdSeg4 ++ cmdSeg5))) :=
    noDashS_append (by decide) nC45 (fun h1 _ => absurd h1 (by decide))
  have nA : ('-', 's') ∉ adjPairs config.hevmContractAddress.data :=
    fun h => hA2 (adjPairs_fst_mem h)
  have nA3 : ('-', 's') ∉ adjPairs (config.hevmContractAddress.data
      ++ (cmdSeg3 ++ (config.hevmCaller.data ++ (cmdSeg4 ++ cmdSeg5)))) :=
    noDashS_append nA n3 (fun _ h2 => by
      rw [headD_append_left _ 'A' (show cmdSeg3 ≠ [] by decide)] at h2
      exact absurd h2 (by decide))
  have n2 : ('-', 's') ∉ adjPairs (cmdSeg2
      ++ (config.hevmContractAddress.data ++ (cmdSeg3
      ++ (config.hevmCaller.data ++ (cmdSeg4 ++ cmdSeg5))))) :=
    noDashS_append (by decide) nA3 (fun h1 _ => absurd h1 (by decide))
  have nB : ('-', 's') ∉ adjPairs bytecode.data :=
    fun h => hB2 (adjPairs_fst_mem h)
  have nB2 : ('-', 's') ∉ adjPairs (bytecode.data ++ (cmdSeg2
      ++ (config.hevmContractAddress.data ++ (cmdSeg3
      ++ (config.hevmCaller.data ++ (cmdSeg4 ++ cmdSeg5)))))) :=
    noDashS_append nB n2 (fun _ h2 => by
      rw [headD_append_left _ 'A' (show cmdSeg2 ≠ [] by decide)] at h2
      exact absurd h2 (by decide))
  have n1 : ('-', 's') ∉ adjPairs (cmdSeg1 ++ (bytecode.data ++ (cmdSeg2
      ++ (config.hevmContractAddress.data ++ (cmdSeg3
      ++ (config.hevmCaller.data ++ (cmdSeg4 ++ cmdSeg5))))))) :=
    noDashS_append (by decide) nB2 (fun h1 _ => absurd h1 (by decide))
  exact n1 hp

/-- C7: the deploy command contains the `--state` flag (pointing at
`cwd/statePath`) iff state or storage checking is enabled, and in all cases it
invokes the engine in create mode with the given bytecode, the configured
contract and caller addresses, and gas `0xffffffff`. -/
theorem deployCommand_spec (bytecode cwd : String) (config : Config)
    (hB2 : '-' ∉ bytecode.data)
    (hA2 : '-' ∉ config.hevmContractAddress.data)
    (hC2 : '-' ∉ config.hevmCaller.data) :
    (("--state".data <:+: deployCommand bytecode config cwd) ↔
      (config.stateChecked || config.storageChecked) = true)
    ∧ ((config.stateChecked || config.storageChecked) = true →
        ("--state " ++ cwd ++ "/" ++ config.statePath).data <:+:
          deployCommand bytecode config cwd)
    ∧ ("hevm exec".data <+: deployCommand bytecode config cwd)
    ∧ (("--code " ++ bytecode).data <:+: deployCommand bytecode config cwd)
    ∧ (("--address " ++ config.hevmContractAddress).data <:+:
        deployCommand bytecode config cwd)
    ∧ ("--create".data <:+: deployCommand bytecode config cwd)
    ∧ (("--caller " ++ config.hevmCaller).data <:+:
        deployCommand bytecode config cwd)
    ∧ ("--gas 0xffffffff".data <:+: deployCommand bytecode config cwd) := by
  refine ⟨?_, ?_, ?_, ?_, ?_, ?_, ?_, ?_⟩
  · cases hflag : (config.stateChecked || config.storageChecked) with
    | false =>
      constructor
      · intro h
        exact absurd h (deployCommand_no_state_of_flags_off bytecode config
          cwd hflag hB2 hA2 hC2)
      · intro h
        cases h
    | true =>
      constructor
      · intro _
        rfl
      · intro _
        have hfull := state_infix_of_flags_on bytecode config cwd hflag
        have e1 : "--state ".data = "--state".data ++ " ".data := by decide
        have hpre : "--state".data <+:
            ("--state " ++ cwd ++ "/" ++ config.statePath).data := by
          refine ⟨(" " ++ cwd ++ "/" ++ config.statePath).data, ?_⟩
          simp [String.data_append, e1, List.append_assoc]
        exact hpre.isInfix.trans hfull
  · intro hflag
    exact state_infix_of_flags_on bytecode config cwd hflag
  · refine ⟨"\n    --code ".data ++ (bytecode.data ++ (cmdSeg2
      ++ (config.hevmContractAddress.data ++ (cmdSeg3
      ++ (config.hevmCaller.data ++ (cmdSeg4 ++ cmdTail config cwd)))))), ?_⟩
    rw [deployCommand_eq_tail,
      show cmdSeg1 = "hevm exec".data ++ "\n    --code ".data from by decide]
    simp [List.append_assoc]
  · refine ⟨"hevm exec\n    ".data, cmdSeg2
      ++ (config.hevmContractAddress.data ++ (cmdSeg3
      ++ (config.hevmCaller.data ++ (cmdSeg4 ++ cmdTail config cwd)))), ?_⟩
    rw [deployCommand_eq_tail,
      show cmdSeg1 = "hevm exec\n    ".data ++ "--code ".data from by decide]
    simp [String.data_append, List.append_assoc]
  · refine ⟨cmdSeg1 ++ (bytecode.data ++ "     ".data), cmdSeg3
      ++ (config.hevmCaller.data ++ (cmdSeg4 ++ cmdTail config cwd)), ?_⟩
    rw [deployCommand_eq_tail,
      show cmdSeg2 = "     ".data ++ "--address ".data from by decide]
    simp [String.data_append, List.append_assoc]
  · refine ⟨cmdSeg1 ++ (bytecode.data ++ (cmdSeg2
      ++ (config.hevmContractAddress.data ++ "     ".data))),
      "     --caller ".data ++ (config.hevmCaller.data
        ++ (cmdSeg4 ++ cmdTail config cwd)), ?_⟩
    rw [deployCommand_eq_tail,
      show cmdSeg3
        = "     ".data ++ ("--create".data ++ "     --caller ".data)
        from by decide]
    simp [List.append_assoc]
  · refine ⟨cmdSeg1 ++ (bytecode.data ++ (cmdSeg2
      ++ (config.hevmContractAddress.data ++ "     --create     ".data))),
      cmdSeg4 ++ cmdTail config cwd, ?_⟩
    rw [deployCommand_eq_tail,
      show cmdSeg3 = "     --create     ".data ++ "--caller ".data
        from by decide]
    simp [String.data_append, List.append_assoc]
  · refine ⟨cmdSeg1 ++ (bytecode.data ++ (cmdSeg2
      ++ (config.hevmContractAddress.data ++ (cmdSeg3
      ++ (config.hevmCaller.data ++ "     ".data))))),
      "     ".data ++ cmdTail config cwd, ?_⟩
    rw [deployCommand_eq_tail,
      show cmdSeg4
        = "     ".data ++ ("--gas 0xffffffff".data ++ "     ".data)
        from by decide]
    simp [List.append_assoc]

/-- C7 witness: the statement at concrete parameters, for both flag
settings. -/
theorem deployCommand_spec_witness :
    (("--state".data <:+: deployCommand "6000" cfgOnC7 "/w") ↔
      (true || false) = true)
    ∧ ("--state " ++ "/w" ++ "/" ++ "st").data <:+:
        deployCommand "6000" cfgOnC7 "/w"
    ∧ "hevm exec".data <+: deployCommand "6000" cfgOnC7 "/w"
    ∧ ("--code " ++ "6000").data <:+: deployCommand "6000" cfgOnC7 "/w"
    ∧ ("--address " ++ "0x42").data <:+: deployCommand "6000" cfgOnC7 "/w"
    ∧ "--create".data <:+: deployCommand "6000" cfgOnC7 "/w"
    ∧ ("--caller " ++ "0xca").data <:+: deployCommand "6000" cfgOnC7 "/w"
    ∧ "--gas 0xffffffff".data <:+: deployCommand "6000" cfgOnC7 "/w"
    ∧ (("--state".data <:+: deployCommand "6000" cfgOffC7 "/w") ↔
        (false || false) = true) := by
  have hOn := deployCommand_spec "6000" "/w" cfgOnC7 (by decide) (by decide)
    (by decide)
  have hOff := deployCommand_spec "6000" "/w" cfgOffC7 (by decide) (by decide)
    (by decide)
  exact ⟨hOn.1, hOn.2.1 rfl, hOn.2.2.1, hOn.2.2.2.1, hOn.2.2.2.2.1,
    hOn.2.2.2.2.2.1, hOn.2.2.2.2.2.2.1, hOn.2.2.2.2.2.2.2, hOff.1⟩
